import Mathlib

/-!
# CMTA/Rules: the Hardhat build configuration `hardhat.config.js`

The repository's only source file is a CommonJS module with two statements:

```
require("@nomicfoundation/hardhat-foundry");
module.exports = { solidity: "0.8.30",
                   settings: { optimizer: { enabled: true, runs: 200 }, evmVersion: "prague" } };
```

The module body is embedded as a state-passing function over the state of one module
evaluation.  JavaScript values are a small tree type (object literals keep their properties
in source order), `require` is the host's module loader, and an assignment to
`module.exports` replaces the exported value.
-/

namespace HardhatConfig

/-! ## JavaScript values -/

mutual
/-- The JavaScript values that occur in the file: primitives and object literals. -/
inductive JSValue where
  | undefined
  | bool (b : Bool)
  | num (n : Int)
  | str (s : String)
  | obj (props : JSProps)
  deriving DecidableEq
/-- The own properties of an object literal, in source order. -/
inductive JSProps where
  | nil
  | cons (key : String) (value : JSValue) (rest : JSProps)
  deriving DecidableEq
end

mutual
/-- Every property path that leads from a value to one of its (transitive) fields. -/
def JSValue.paths : JSValue → List (List String)
  | .obj ps => ps.paths
  | _ => []
/-- Paths through a property list: each key, then the paths below its value. -/
def JSProps.paths : JSProps → List (List String)
  | .nil => []
  | .cons k v rest => [k] :: (v.paths.map (k :: ·)) ++ rest.paths
end

/-- Own property lookup in a property list (first match in source order). -/
def JSProps.get? : JSProps → String → Option JSValue
  | .nil, _ => none
  | .cons k v rest, name => if k = name then some v else rest.get? name

/-- The keys of a property list, in source order. -/
def JSProps.keys : JSProps → List String
  | .nil => []
  | .cons k _ rest => k :: rest.keys

/-- The names of the own fields of a value: the keys of an object literal, none for a
primitive. -/
def JSValue.fields : JSValue → List String
  | .obj ps => ps.keys
  | _ => []

/-- Reading the own field `name` of a value; a primitive has no own fields. -/
def JSValue.get? : JSValue → String → Option JSValue
  | .obj ps, name => ps.get? name
  | _, _ => none

/-- Following a chain of field names from a value. -/
def JSValue.getPath : JSValue → List String → Option JSValue
  | v, [] => some v
  | v, k :: ks =>
    match v.get? k with
    | some w => w.getPath ks
    | none => none

/-- The result of JavaScript's `typeof` operator on a value. -/
def JSValue.typeof : JSValue → String
  | .undefined => "undefined"
  | .bool _ => "boolean"
  | .num _ => "number"
  | .str _ => "string"
  | .obj _ => "object"

/-! ## The host: module loading and the state of one evaluation -/

/-- What a `require` call can throw: the loader's own error for a request that resolves to no
file, or whatever value the body of the required module throws while it is loading. -/
inductive JSError where
  | moduleNotFound (request : String)
  | thrown (value : JSValue)
  deriving DecidableEq

/-- The host the file is evaluated in, seen from the directory of the configuration file:
`resolve` maps a request to the filename it resolves to on the search path (`none` when no
file is found), and `load` runs the body of the module at a filename, giving its exports or
the value it throws. -/
structure ModuleEnv where
  resolve : String → Option String
  load : String → Except JSValue JSValue

/-- The observable effects of evaluating a module body, in the order they happen. -/
inductive Effect where
  | imported (request : String)
  | exported (value : JSValue)
  deriving DecidableEq

/-- The state one evaluation of the module body runs in: the process-wide cache of modules
already loaded, keyed by resolved filename, the module's `module.exports`, and the effects
performed so far. -/
structure ModuleState where
  cache : List (String × JSValue)
  exports : JSValue
  effects : List Effect
  deriving DecidableEq

/-- The call `require(request)`.  The request is resolved first; one that resolves to no file
throws module-not-found.  A resolved file already in the process cache is returned from it.
Otherwise the body of the module is run: when it completes the module is cached and its
exports returned, when it throws the throw leaves the `require` call and nothing is cached. -/
def require (env : ModuleEnv) (request : String) (st : ModuleState) :
    Except JSError JSValue × ModuleState :=
  match env.resolve request with
  | none => (.error (.moduleNotFound request), st)
  | some file =>
    match st.cache.lookup file with
    | some v => (.ok v, { st with effects := st.effects ++ [.imported request] })
    | none =>
      match env.load file with
      | .ok v =>
        (.ok v, { st with cache := (file, v) :: st.cache,
                          effects := st.effects ++ [.imported request] })
      | .error e => (.error (.thrown e), st)

/-- The assignment `module.exports = value`. -/
def assignExports (value : JSValue) (st : ModuleState) : ModuleState :=
  { st with exports := value, effects := st.effects ++ [.exported value] }

/-! ## The source file -/

/-- The object literal on the right-hand side of `module.exports = ...` (lines 3 to 12). -/
def configRecord : JSValue :=
  .obj
    (.cons "solidity" (.str "0.8.30")
    (.cons "settings"
      (.obj
        (.cons "optimizer"
          (.obj
            (.cons "enabled" (.bool true)
            (.cons "runs" (.num 200)
            .nil)))
        (.cons "evmVersion" (.str "prague")
        .nil)))
    .nil))

/-- The body of `hardhat.config.js`: the expression statement
`require("@nomicfoundation/hardhat-foundry");` whose value is dropped, then the assignment of
the object literal to `module.exports`.  A throw in the first statement ends the evaluation. -/
def hardhat_config (env : ModuleEnv) (st : ModuleState) : Except JSError Unit × ModuleState :=
  match require env "@nomicfoundation/hardhat-foundry" st with
  | (.error e, st1) => (.error e, st1)
  | (.ok _, st1) => (.ok (), assignExports configRecord st1)

/-- The state a module body starts in: `module.exports` is the empty object and nothing has
happened yet; the process cache is whatever earlier evaluations left. -/
def freshModule (cache : List (String × JSValue)) : ModuleState :=
  { cache := cache, exports := .obj .nil, effects := [] }

/-- One evaluation of the configuration file in a process with the given module cache. -/
def evaluate (env : ModuleEnv) (cache : List (String × JSValue)) :
    Except JSError Unit × ModuleState :=
  hardhat_config env (freshModule cache)

/-! ## Three hosts used as concrete inputs -/

/-- A host where the Foundry plugin is on the search path and loads to completion. -/
def pluginInstalled : ModuleEnv where
  resolve := fun request =>
    if request = "@nomicfoundation/hardhat-foundry" then
      some "node_modules/@nomicfoundation/hardhat-foundry/dist/src/index.js"
    else none
  load := fun _ => .ok (.obj .nil)

/-- A host where no module can be found. -/
def pluginMissing : ModuleEnv where
  resolve := fun _ => none
  load := fun _ => .error .undefined

/-- A host where the Foundry plugin is on the search path but its body throws while it
loads. -/
def pluginThrows : ModuleEnv where
  resolve := fun request =>
    if request = "@nomicfoundation/hardhat-foundry" then
      some "node_modules/@nomicfoundation/hardhat-foundry/dist/src/index.js"
    else none
  load := fun _ => .error (.str "plugin failed to load")

/-! ## Shared lemmas about one evaluation -/

theorem evaluate_of_unresolved (env : ModuleEnv) (cache : List (String × JSValue))
    (hr : env.resolve "@nomicfoundation/hardhat-foundry" = none) :
    evaluate env cache =
      (.error (.moduleNotFound "@nomicfoundation/hardhat-foundry"), freshModule cache) := by
  simp [evaluate, hardhat_config, require, hr]

theorem evaluate_of_cached (env : ModuleEnv) (cache : List (String × JSValue))
    (file : String) (v : JSValue)
    (hr : env.resolve "@nomicfoundation/hardhat-foundry" = some file)
    (hc : cache.lookup file = some v) :
    evaluate env cache =
      (.ok (), { cache := cache, exports := configRecord,
                 effects := [.imported "@nomicfoundation/hardhat-foundry",
                             .exported configRecord] }) := by
  simp [evaluate, hardhat_config, require, freshModule, assignExports, hr, hc]

theorem evaluate_of_loaded (env : ModuleEnv) (cache : List (String × JSValue))
    (file : String) (v : JSValue)
    (hr : env.resolve "@nomicfoundation/hardhat-foundry" = some file)
    (hc : cache.lookup file = none) (hl : env.load file = .ok v) :
    evaluate env cache =
      (.ok (), { cache := (file, v) :: cache, exports := configRecord,
                 effects := [.imported "@nomicfoundation/hardhat-foundry",
                             .exported configRecord] }) := by
  simp [evaluate, hardhat_config, require, freshModule, assignExports, hr, hc, hl]

theorem evaluate_of_load_throws (env : ModuleEnv) (cache : List (String × JSValue))
    (file : String) (e : JSValue)
    (hr : env.resolve "@nomicfoundation/hardhat-foundry" = some file)
    (hc : cache.lookup file = none) (hl : env.load file = .error e) :
    evaluate env cache = (.error (.thrown e), freshModule cache) := by
  simp [evaluate, hardhat_config, require, freshModule, hr, hc, hl]

/-- The two ways an evaluation can end: the import completed, the record is exported and the
plugin is in the cache under the file it resolves to; or the import threw and the module is
as it started. -/
theorem evaluate_cases (env : ModuleEnv) (cache : List (String × JSValue)) :
    ((evaluate env cache).1 = .ok () ∧
        (evaluate env cache).2.exports = configRecord ∧
        (evaluate env cache).2.effects =
          [.imported "@nomicfoundation/hardhat-foundry", .exported configRecord] ∧
        ∃ file v, env.resolve "@nomicfoundation/hardhat-foundry" = some file ∧
          (evaluate env cache).2.cache.lookup file = some v) ∨
    ((∃ e, (evaluate env cache).1 = .error e) ∧
        (evaluate env cache).2 = freshModule cache) := by
  cases hr : env.resolve "@nomicfoundation/hardhat-foundry" with
  | none =>
    right
    rw [evaluate_of_unresolved env cache hr]
    exact ⟨⟨_, rfl⟩, rfl⟩
  | some file =>
    cases hc : cache.lookup file with
    | some v =>
      left
      rw [evaluate_of_cached env cache file v hr hc]
      exact ⟨rfl, rfl, rfl, file, v, rfl, hc⟩
    | none =>
      cases hl : env.load file with
      | ok v =>
        left
        rw [evaluate_of_loaded env cache file v hr hc hl]
        refine ⟨rfl, rfl, rfl, file, v, rfl, ?_⟩
        simp [List.lookup]
      | error e =>
        right
        rw [evaluate_of_load_throws env cache file e hr hc hl]
        exact ⟨⟨_, rfl⟩, rfl⟩

/-- A successful evaluation exports the object literal. -/
theorem exports_of_ok (env : ModuleEnv) (cache : List (String × JSValue))
    (h : (evaluate env cache).1 = .ok ()) : (evaluate env cache).2.exports = configRecord := by
  rcases evaluate_cases env cache with ⟨_, he, _⟩ | ⟨⟨e, hf⟩, _⟩
  · exact he
  · rw [hf] at h; cases h

/-! ## The exported record -/

/-- C1: a successful evaluation exports a record whose `solidity` field is the string
"0.8.30", and that field is the only one named `solidity` anywhere in the record, so the
record holds exactly one compiler version value. -/
theorem compilerVersion_eq (env : ModuleEnv) (cache : List (String × JSValue))
    (h : (evaluate env cache).1 = .ok ()) :
    (evaluate env cache).2.exports.get? "solidity" = some (.str "0.8.30") ∧
    (evaluate env cache).2.exports.paths.filter (fun p => p.getLast? = some "solidity") =
      [["solidity"]] := by
  rw [exports_of_ok env cache h]
  decide

theorem compilerVersion_eq_witness :
    (evaluate pluginInstalled []).1 = .ok () ∧
    (evaluate pluginInstalled []).2.exports.get? "solidity" = some (.str "0.8.30") ∧
    (evaluate pluginInstalled []).2.exports.paths.filter
      (fun p => p.getLast? = some "solidity") = [["solidity"]] :=
  ⟨by rfl, compilerVersion_eq pluginInstalled [] (by rfl)⟩

/-- C2, as stated, fails: the record exported on a search path with the plugin installed has
no field `compilerVersion`; its top-level fields are `solidity` and `settings`. -/
theorem fieldLayout_no_compilerVersion :
    (evaluate pluginInstalled []).1 = .ok () ∧
    (evaluate pluginInstalled []).2.exports.get? "compilerVersion" = none ∧
    (evaluate pluginInstalled []).2.exports.fields ≠ ["compilerVersion", "settings"] ∧
    (evaluate pluginInstalled []).2.exports.fields = ["solidity", "settings"] := by
  refine ⟨by rfl, by rfl, ?_, by rfl⟩
  rw [exports_of_ok pluginInstalled [] (by rfl)]
  decide

/-- C2, amended: a successful evaluation exports a record with exactly the two top-level
fields `solidity` (a string) and `settings`; `settings` has exactly the fields `optimizer` and
`evmVersion` (a string); `optimizer` has exactly the fields `enabled` (a boolean) and `runs`
(a positive integer). -/
theorem fieldLayout (env : ModuleEnv) (cache : List (String × JSValue))
    (h : (evaluate env cache).1 = .ok ()) :
    (evaluate env cache).2.exports.fields = ["solidity", "settings"] ∧
    ((evaluate env cache).2.exports.getPath ["solidity"]).map JSValue.typeof = some "string" ∧
    ((evaluate env cache).2.exports.getPath ["settings"]).map JSValue.fields =
      some ["optimizer", "evmVersion"] ∧
    ((evaluate env cache).2.exports.getPath ["settings", "evmVersion"]).map JSValue.typeof =
      some "string" ∧
    ((evaluate env cache).2.exports.getPath ["settings", "optimizer"]).map JSValue.fields =
      some ["enabled", "runs"] ∧
    ((evaluate env cache).2.exports.getPath ["settings", "optimizer", "enabled"]).map
      JSValue.typeof = some "boolean" ∧
    ∃ n : Int, (evaluate env cache).2.exports.getPath ["settings", "optimizer", "runs"] =
      some (.num n) ∧ 0 < n := by
  rw [exports_of_ok env cache h]
  exact ⟨by decide, by decide, by decide, by decide, by decide, by decide,
    200, by decide, by decide⟩

theorem fieldLayout_witness :
    (evaluate pluginInstalled []).1 = .ok () ∧
    (evaluate pluginInstalled []).2.exports.fields = ["solidity", "settings"] ∧
    ((evaluate pluginInstalled []).2.exports.getPath ["settings"]).map JSValue.fields =
      some ["optimizer", "evmVersion"] ∧
    ((evaluate pluginInstalled []).2.exports.getPath ["settings", "optimizer"]).map
      JSValue.fields = some ["enabled", "runs"] :=
  have h := fieldLayout pluginInstalled [] (by rfl)
  ⟨by rfl, h.1, h.2.2.1, h.2.2.2.2.1⟩

/-- C3: in the record exported by a successful evaluation, `settings.optimizer.enabled` is
the boolean `true`. -/
theorem optimizer_enabled (env : ModuleEnv) (cache : List (String × JSValue))
    (h : (evaluate env cache).1 = .ok ()) :
    (evaluate env cache).2.exports.getPath ["settings", "optimizer", "enabled"] =
      some (.bool true) := by
  rw [exports_of_ok env cache h]
  decide

theorem optimizer_enabled_witness :
    (evaluate pluginInstalled []).1 = .ok () ∧
    (evaluate pluginInstalled []).2.exports.getPath ["settings", "optimizer", "enabled"] =
      some (.bool true) :=
  ⟨by rfl, optimizer_enabled pluginInstalled [] (by rfl)⟩

/-- C4: in the record exported by a successful evaluation, `settings.optimizer.runs` is the
integer 200, which is strictly positive. -/
theorem optimizer_runs (env : ModuleEnv) (cache : List (String × JSValue))
    (h : (evaluate env cache).1 = .ok ()) :
    ∃ n : Int, (evaluate env cache).2.exports.getPath ["settings", "optimizer", "runs"] =
      some (.num n) ∧ n = 200 ∧ 0 < n := by
  rw [exports_of_ok env cache h]
  exact ⟨200, by decide, rfl, by decide⟩

theorem optimizer_runs_witness :
    (evaluate pluginInstalled []).1 = .ok () ∧
    ∃ n : Int, (evaluate pluginInstalled []).2.exports.getPath
      ["settings", "optimizer", "runs"] = some (.num n) ∧ n = 200 ∧ 0 < n :=
  ⟨by rfl, optimizer_runs pluginInstalled [] (by rfl)⟩

/-- C5: in the record exported by a successful evaluation, `settings.evmVersion` is the
string "prague". -/
theorem evmVersion_eq (env : ModuleEnv) (cache : List (String × JSValue))
    (h : (evaluate env cache).1 = .ok ()) :
    (evaluate env cache).2.exports.getPath ["settings", "evmVersion"] =
      some (.str "prague") := by
  rw [exports_of_ok env cache h]
  decide

theorem evmVersion_eq_witness :
    (evaluate pluginInstalled []).1 = .ok () ∧
    (evaluate pluginInstalled []).2.exports.getPath ["settings", "evmVersion"] =
      some (.str "prague") :=
  ⟨by rfl, evmVersion_eq pluginInstalled [] (by rfl)⟩

/-- C10: in the record exported by a successful evaluation, `solidity` is a string with no
fields below it, `solidity` and `settings` are the two top-level siblings, and every path to
`optimizer`, `enabled`, `runs` or `evmVersion` starts at the top-level `settings` field. -/
theorem settings_sibling_of_solidity (env : ModuleEnv) (cache : List (String × JSValue))
    (h : (evaluate env cache).1 = .ok ()) :
    (evaluate env cache).2.exports.get? "solidity" = some (.str "0.8.30") ∧
    (evaluate env cache).2.exports.fields = ["solidity", "settings"] ∧
    (evaluate env cache).2.exports.paths.filter (fun p => p.head? = some "solidity") =
      [["solidity"]] ∧
    (evaluate env cache).2.exports.paths.filter
        (fun p => p.getLast? ∈ [some "optimizer", some "enabled", some "runs",
          some "evmVersion"]) =
      [["settings", "optimizer"], ["settings", "optimizer", "enabled"],
       ["settings", "optimizer", "runs"], ["settings", "evmVersion"]] ∧
    (evaluate env cache).2.exports.getPath ["solidity", "settings"] = none ∧
    (evaluate env cache).2.exports.getPath ["solidity", "optimizer"] = none ∧
    (evaluate env cache).2.exports.getPath ["solidity", "evmVersion"] = none ∧
    (evaluate env cache).2.exports.getPath ["optimizer"] = none ∧
    (evaluate env cache).2.exports.getPath ["evmVersion"] = none := by
  rw [exports_of_ok env cache h]
  decide

theorem settings_sibling_of_solidity_witness :
    (evaluate pluginInstalled []).1 = .ok () ∧
    (evaluate pluginInstalled []).2.exports.fields = ["solidity", "settings"] ∧
    (evaluate pluginInstalled []).2.exports.getPath ["solidity", "settings"] = none :=
  have h := settings_sibling_of_solidity pluginInstalled [] (by rfl)
  ⟨by rfl, h.2.1, h.2.2.2.2.1⟩

/-! ## Evaluation: the plugin import, failure, repetition and order of effects -/

/-- C6, as stated, fails: on a host where the plugin is present on the search path but its
body throws while loading, the unguarded `require` lets the throw end the evaluation of the
file, and no record is exported. -/
theorem import_throws_when_plugin_throws :
    (pluginThrows.resolve "@nomicfoundation/hardhat-foundry").isSome = true ∧
    (evaluate pluginThrows []).1 = .error (.thrown (.str "plugin failed to load")) ∧
    (evaluate pluginThrows []).1 ≠ .ok () ∧
    (evaluate pluginThrows []).2.exports = .obj .nil := by
  refine ⟨by rfl, by rfl, ?_, by rfl⟩
  intro h
  cases h

/-- C6, amended: on every host where "@nomicfoundation/hardhat-foundry" resolves to a file on
the search path and the module at that file loads without throwing, in every process,
evaluating the file completes without a throw and exports the record; the evaluation performs
exactly one import, of that module. -/
theorem import_resolves (env : ModuleEnv) (cache : List (String × JSValue))
    (file : String) (v : JSValue)
    (hr : env.resolve "@nomicfoundation/hardhat-foundry" = some file)
    (hl : env.load file = .ok v) :
    (evaluate env cache).1 = .ok () ∧
    (evaluate env cache).2.exports = configRecord ∧
    (evaluate env cache).2.effects =
      [.imported "@nomicfoundation/hardhat-foundry", .exported configRecord] := by
  cases hc : cache.lookup file with
  | some w =>
    rw [evaluate_of_cached env cache file w hr hc]
    exact ⟨rfl, rfl, rfl⟩
  | none =>
    rw [evaluate_of_loaded env cache file v hr hc hl]
    exact ⟨rfl, rfl, rfl⟩

theorem import_resolves_witness :
    pluginInstalled.resolve "@nomicfoundation/hardhat-foundry" =
      some "node_modules/@nomicfoundation/hardhat-foundry/dist/src/index.js" ∧
    pluginInstalled.load "node_modules/@nomicfoundation/hardhat-foundry/dist/src/index.js" =
      .ok (.obj .nil) ∧
    (evaluate pluginInstalled []).1 = .ok () ∧
    (evaluate pluginInstalled []).2.exports = configRecord ∧
    (evaluate pluginInstalled []).2.effects =
      [.imported "@nomicfoundation/hardhat-foundry", .exported configRecord] :=
  ⟨by rfl, by rfl,
    import_resolves pluginInstalled []
      "node_modules/@nomicfoundation/hardhat-foundry/dist/src/index.js" (.obj .nil)
      (by rfl) (by rfl)⟩

/-- C7, as stated, fails: on a search path without the plugin, in a fresh process, evaluating
the file itself throws the module-not-found error of its own `require` call and exports no
record. -/
theorem evaluate_throws_when_plugin_missing :
    (evaluate pluginMissing []).1 =
      .error (.moduleNotFound "@nomicfoundation/hardhat-foundry") ∧
    (evaluate pluginMissing []).1 ≠ .ok () ∧
    (evaluate pluginMissing []).2.exports = .obj .nil := by
  refine ⟨by rfl, ?_, by rfl⟩
  intro h
  cases h

/-- C7, amended: the file checks none of its values and fails only through its plugin import.
The completion of an evaluation is the completion of its `require` call: a throw of that call
is the throw of the file, and when the call completes the file completes.  When the plugin
resolves to no file the throw is module-not-found for "@nomicfoundation/hardhat-foundry",
whatever the process has cached.  A completed evaluation exports the record; after a throw
`module.exports` is still the empty object. -/
theorem failure_only_from_import (env : ModuleEnv) (cache : List (String × JSValue)) :
    (evaluate env cache).1 =
      (match (require env "@nomicfoundation/hardhat-foundry" (freshModule cache)).1 with
       | .ok _ => .ok ()
       | .error e => .error e) ∧
    (env.resolve "@nomicfoundation/hardhat-foundry" = none →
      (evaluate env cache).1 =
        .error (.moduleNotFound "@nomicfoundation/hardhat-foundry")) ∧
    (evaluate env cache).2.exports =
      (match (evaluate env cache).1 with
       | .ok _ => configRecord
       | .error _ => .obj .nil) := by
  refine ⟨?_, ?_, ?_⟩
  · unfold evaluate hardhat_config
    split <;> simp_all
  · intro hr
    rw [evaluate_of_unresolved env cache hr]
  · rcases evaluate_cases env cache with ⟨hok, he, _⟩ | ⟨⟨e, herr⟩, hst⟩
    · rw [hok, he]
    · rw [herr, hst]
      rfl

theorem failure_only_from_import_witness :
    pluginMissing.resolve "@nomicfoundation/hardhat-foundry" = none ∧
    (evaluate pluginMissing []).1 =
      .error (.moduleNotFound "@nomicfoundation/hardhat-foundry") :=
  ⟨by rfl, (failure_only_from_import pluginMissing []).2.1 (by rfl)⟩

/-- C8: evaluating the file a second time in the same process (the cache left by the first
evaluation, the same search path) gives the same completion and the same exported value as
the first; and any two successful evaluations, whatever their search paths and process
caches, export equal records. -/
theorem evaluate_twice (env env2 : ModuleEnv) (cache cache2 : List (String × JSValue)) :
    (evaluate env (evaluate env cache).2.cache).1 = (evaluate env cache).1 ∧
    (evaluate env (evaluate env cache).2.cache).2.exports = (evaluate env cache).2.exports ∧
    ((evaluate env cache).1 = .ok () → (evaluate env2 cache2).1 = .ok () →
      (evaluate env2 cache2).2.exports = (evaluate env cache).2.exports) := by
  refine ⟨?_, ?_, ?_⟩
  · rcases evaluate_cases env cache with ⟨hok, _, _, file, v, hr, hc⟩ | ⟨_, hst⟩
    · rw [evaluate_of_cached env _ file v hr hc, hok]
    · have hcache : (evaluate env cache).2.cache = cache := by rw [hst]; rfl
      rw [hcache]
  · rcases evaluate_cases env cache with ⟨_, he, _, file, v, hr, hc⟩ | ⟨_, hst⟩
    · rw [evaluate_of_cached env _ file v hr hc, he]
    · have hcache : (evaluate env cache).2.cache = cache := by rw [hst]; rfl
      rw [hcache]
  · intro h h2
    rw [exports_of_ok env cache h, exports_of_ok env2 cache2 h2]

theorem evaluate_twice_witness :
    (evaluate pluginInstalled []).1 = .ok () ∧
    (evaluate pluginInstalled (evaluate pluginInstalled []).2.cache).1 = .ok () ∧
    (evaluate pluginInstalled (evaluate pluginInstalled []).2.cache).2.exports =
      (evaluate pluginInstalled []).2.exports ∧
    (evaluate pluginInstalled []).2.exports = configRecord :=
  have h := evaluate_twice pluginInstalled pluginInstalled [] []
  ⟨by rfl, h.1.trans (by rfl), h.2.1, by rfl⟩

/-- C9: in the effects of any evaluation, an export of `module.exports` at position `i` has
the import of "@nomicfoundation/hardhat-foundry" at an earlier position. -/
theorem import_before_export (env : ModuleEnv) (cache : List (String × JSValue))
    (i : Nat) (v : JSValue)
    (h : (evaluate env cache).2.effects[i]? = some (.exported v)) :
    ∃ j, j < i ∧
      (evaluate env cache).2.effects[j]? =
        some (.imported "@nomicfoundation/hardhat-foundry") := by
  rcases evaluate_cases env cache with ⟨_, _, ht, _⟩ | ⟨_, hst⟩
  · rw [ht] at h ⊢
    match i, h with
    | 0, h => simp at h
    | 1, _ => exact ⟨0, by decide, rfl⟩
    | n + 2, h => simp at h
  · rw [hst] at h
    simp [freshModule] at h

theorem import_before_export_witness :
    (evaluate pluginInstalled []).2.effects[1]? = some (.exported configRecord) ∧
    ∃ j, j < 1 ∧
      (evaluate pluginInstalled []).2.effects[j]? =
        some (.imported "@nomicfoundation/hardhat-foundry") :=
  ⟨by rfl, import_before_export pluginInstalled [] 1 configRecord (by rfl)⟩

end HardhatConfig
